import Mathlib

/-!
Verification of the frontsense runtime branch-coverage core.

The development shallowly embeds the three core pieces of the repository:
the runtime aggregator (src/core/runtime-collector.ts), the summarization
algorithm (getExecutionSummary in the same file), and the Babel
instrumentation pass (src/babel-plugin.ts), and proves or refutes the
frozen specification claims about them.

JavaScript numbers that the claims depend on are modelled as rationals,
Nat counters as Nat, and JS objects used as string-keyed tables as
insertion-ordered association lists.
-/

namespace Frontsense

/-! ## JavaScript arithmetic helpers -/

/-- Truncation toward zero, as used by the JavaScript remainder operator. -/
def jsTrunc (q : ℚ) : ℤ :=
  if 0 ≤ q then ⌊q⌋ else ⌈q⌉

/-- JavaScript remainder by 1: a % 1 = a - trunc(a). -/
def jsMod1 (q : ℚ) : ℚ :=
  q - jsTrunc q

/-! ## Data model (src/types/index.ts)

BranchHit records a branch identity and its hit and miss counters.
Line and column come from parseInt over branchId segments; a parse that
yields NaN in JavaScript is modelled as none. -/

/-- One branch record of the statistics table, from interface BranchHit. -/
structure BranchRec where
  branchId : String
  file : String
  line : Option ℤ
  column : Option ℤ
  type : String
  condition : String
  hitCount : ℕ
  missCount : ℕ
  timestamp : ℚ
  executionTime : Option ℚ
  deriving DecidableEq, Repr

/-- The branch-statistics table: a JS object keyed by branchId, modelled
as an insertion-ordered association list. -/
abbrev BranchStats := List (String × BranchRec)

/-- Sampling configuration, from interface SamplingConfig. -/
structure SamplingConfig where
  enabled : Bool
  sampleRate : ℚ
  maxSamplesPerSecond : ℚ
  collectExecutionTime : Bool
  deriving DecidableEq, Repr

/-- Runtime configuration, from interface RuntimeCoverageConfig. -/
structure RuntimeCoverageConfig where
  enabled : Bool
  sampling : SamplingConfig
  excludePatterns : List String
  includePatterns : List String
  sendToAnalytics : Bool
  analyticsEndpoint : Option String
  visualizationEnabled : Bool
  deriving DecidableEq, Repr

/-- The mutable state of class RuntimeCoverageCollector: the private
fields branchStats, samplingConfig, config, sampleCounter,
lastSampleTime and sessionId. -/
structure CollectorState where
  branchStats : BranchStats
  samplingConfig : SamplingConfig
  config : RuntimeCoverageConfig
  sampleCounter : ℕ
  lastSampleTime : ℚ
  sessionId : String
  deriving DecidableEq, Repr

/-! ## Association-list primitives for the JS object table -/

/-- Reading this.branchStats at a key. -/
def getEntry (t : BranchStats) (k : String) : Option BranchRec :=
  (t.find? (fun p => decide (p.1 = k))).map (fun p => p.2)

/-- Key membership in the table, as Object.keys would report it. -/
def hasEntry (t : BranchStats) (k : String) : Bool :=
  (getEntry t k).isSome

/-- In-place update of an existing key. -/
def updateEntry (t : BranchStats) (k : String) (f : BranchRec → BranchRec) :
    BranchStats :=
  t.map (fun p => if p.1 = k then (p.1, f p.2) else p)

/-- Creation of a missing key; JS string-keyed objects append in
insertion order. -/
def insertEntry (t : BranchStats) (k : String) (v : BranchRec) : BranchStats :=
  t ++ [(k, v)]

/-- Object.values over the table. -/
def tableValues (t : BranchStats) : List BranchRec :=
  t.map (fun p => p.2)

/-! ## The collector operations (src/core/runtime-collector.ts) -/

/-- JavaScript parseInt with radix 10, restricted to the digit strings a
branchId carries; a string with no leading digits gives NaN, modelled as
none. -/
def jsParseInt (s : String) : Option ℤ :=
  let digits := s.takeWhile (fun c => c.isDigit)
  if digits.isEmpty then none else some (digits.toNat!)

/-- The constructor of RuntimeCoverageCollector: copies config, aliases
samplingConfig to config.sampling, zeroes the counters (lines 3 to 23).
The session id is environment input and is passed in. -/
def initCollector (config : RuntimeCoverageConfig) (sessionId : String) :
    CollectorState :=
  { branchStats := []
    samplingConfig := config.sampling
    config := config
    sampleCounter := 0
    lastSampleTime := 0
    sessionId := sessionId }

/-- Method shouldSample (lines 94 to 97): increment sampleCounter, then
test (sampleCounter * sampleRate) % 1 < sampleRate. -/
def shouldSample (s : CollectorState) : Bool × CollectorState :=
  let s1 := { s with sampleCounter := s.sampleCounter + 1 }
  (decide (jsMod1 ((s1.sampleCounter : ℚ) * s.samplingConfig.sampleRate) <
    s.samplingConfig.sampleRate), s1)

/-- Method isRateLimited (lines 99 to 109): compare the time since the
last accepted sample with 1000 / maxSamplesPerSecond, and update
lastSampleTime only when not limited. -/
def isRateLimited (s : CollectorState) (now : ℚ) : Bool × CollectorState :=
  let timeSinceLastSample := now - s.lastSampleTime
  let minInterval := 1000 / s.samplingConfig.maxSamplesPerSecond
  if timeSinceLastSample < minInterval then
    (true, s)
  else
    (false, { s with lastSampleTime := now })

/-- The fresh record built at lines 63 to 75 when a branchId is first
seen: file, line and column are destructured from branchId.split of the
colon, counters start at zero. -/
def freshRecord (branchId : String) (type : String) (conditionCode : String)
    (now : ℚ) : BranchRec :=
  let parts := branchId.splitOn ":"
  { branchId := branchId
    file := (parts.get? 0).getD ""
    line := (parts.get? 1).bind jsParseInt
    column := (parts.get? 2).bind jsParseInt
    type := type
    condition := conditionCode
    hitCount := 0
    missCount := 0
    timestamp := now
    executionTime := none }

/-- The table mutation of recordBranchHit lines 63 to 89, applied once
both gates have been passed: create the record if missing, bump
hitCount or missCount according to conditionResult, overwrite
executionTime when requested, set the timestamp. -/
def applyHit (t : BranchStats) (branchId : String) (type : String)
    (conditionCode : String) (conditionResult : Bool)
    (collectExecutionTime : Bool) (now now2 : ℚ) : BranchStats :=
  let t0 := if hasEntry t branchId then t
    else insertEntry t branchId (freshRecord branchId type conditionCode now)
  let t1 := updateEntry t0 branchId (fun b =>
    if conditionResult then { b with hitCount := b.hitCount + 1 }
    else { b with missCount := b.missCount + 1 })
  let t2 := updateEntry t1 branchId (fun b =>
    if collectExecutionTime then { b with executionTime := some (now2 - now) }
    else b)
  updateEntry t2 branchId (fun b => { b with timestamp := now })

/-- Method recordBranchHit (lines 39 to 92). The two time readings of
performance.now at lines 51 and 86 are environment inputs now and now2.
Gate one: when sampling is enabled, shouldSample is called (bumping the
counter) and a false verdict returns conditionResult unchanged. Gate
two: when sampling is enabled, isRateLimited is consulted. Past the
gates applyHit mutates the table. -/
def recordBranchHit (s : CollectorState) (branchId : String) (type : String)
    (conditionCode : String) (conditionResult : Bool)
    (collectExecutionTime : Bool) (now now2 : ℚ) : Bool × CollectorState :=
  let g1 : Bool × CollectorState :=
    if s.samplingConfig.enabled then
      let r := shouldSample s
      (!r.1, r.2)
    else (false, s)
  if g1.1 then (conditionResult, g1.2) else
  let s1 := g1.2
  let g2 : Bool × CollectorState :=
    if s1.samplingConfig.enabled then isRateLimited s1 now
    else (false, s1)
  if g2.1 then (conditionResult, g2.2) else
  let s2 := g2.2
  let t := applyHit s2.branchStats branchId type conditionCode
    conditionResult collectExecutionTime now now2
  (conditionResult, { s2 with branchStats := t })

/-- Method getBranchStats (lines 111 to 113): return the spread copy of
the table. Values carry the copy; object identity of the spread is
treated separately in the heap model below. -/
def getBranchStats (s : CollectorState) : BranchStats × CollectorState :=
  (s.branchStats, s)

/-- Method clearStats (lines 166 to 170). -/
def clearStats (s : CollectorState) : CollectorState :=
  { s with branchStats := [], sampleCounter := 0, lastSampleTime := 0 }

/-! ## The summarization algorithm (getExecutionSummary, lines 115 to 164) -/

/-- The summary object built at lines 142 to 150. -/
structure Summary where
  totalBranches : ℕ
  hitBranches : ℕ
  deadBranches : ℕ
  hotBranches : ℕ
  coldBranches : ℕ
  coverageRate : ℚ
  deriving DecidableEq, Repr

/-- Per-file counters of the reduce at lines 123 to 140. -/
structure FileStat where
  total : ℕ
  hit : ℕ
  dead : ℕ
  hot : ℕ
  cold : ℕ
  deriving DecidableEq, Repr

/-- The classification applied to one branch inside the per-file reduce
(lines 129 to 137): dead when hitCount is 0, else hot above 100, else
cold below 5, else hit. -/
def classifyIntoFileStat (fs : FileStat) (b : BranchRec) : FileStat :=
  let fs := { fs with total := fs.total + 1 }
  if b.hitCount == 0 then { fs with dead := fs.dead + 1 }
  else if b.hitCount > 100 then { fs with hot := fs.hot + 1 }
  else if b.hitCount < 5 then { fs with cold := fs.cold + 1 }
  else { fs with hit := fs.hit + 1 }

/-- One step of the reduce at lines 123 to 140 over the file table. -/
def fileStatsStep (acc : List (String × FileStat)) (b : BranchRec) :
    List (String × FileStat) :=
  if (acc.find? (fun p => decide (p.1 = b.file))).isSome then
    acc.map (fun p => if p.1 = b.file then (p.1, classifyIntoFileStat p.2 b) else p)
  else
    acc ++ [(b.file, classifyIntoFileStat { total := 0, hit := 0, dead := 0, hot := 0, cold := 0 } b)]

/-- The reduce at lines 123 to 140. -/
def fileStats (stats : List BranchRec) : List (String × FileStat) :=
  stats.foldl fileStatsStep []

/-- An entry of topDeadCodeFiles (line 156). -/
structure DeadFileEntry where
  file : String
  deadBranches : ℕ
  totalBranches : ℕ
  deriving DecidableEq, Repr

/-- An entry of topHotPathFiles (line 162). -/
structure HotFileEntry where
  file : String
  hotBranches : ℕ
  totalBranches : ℕ
  deriving DecidableEq, Repr

/-- Lines 152 to 156: filter files with dead records, sort descending by
dead count (Array.prototype.sort is stable), keep the first 10. -/
def topDeadCodeFiles (fs : List (String × FileStat)) : List DeadFileEntry :=
  (((fs.filter (fun p => p.2.dead > 0)).mergeSort
      (fun a b => b.2.dead ≤ a.2.dead)).take 10).map
    (fun p => { file := p.1, deadBranches := p.2.dead, totalBranches := p.2.total })

/-- Lines 158 to 162: filter files with hot records, sort descending by
hot count, keep the first 10. -/
def topHotPathFiles (fs : List (String × FileStat)) : List HotFileEntry :=
  (((fs.filter (fun p => p.2.hot > 0)).mergeSort
      (fun a b => b.2.hot ≤ a.2.hot)).take 10).map
    (fun p => { file := p.1, hotBranches := p.2.hot, totalBranches := p.2.total })

/-- The full return value of getExecutionSummary. -/
structure ExecutionSummary where
  summary : Summary
  fileStats : List (String × FileStat)
  topDeadCodeFiles : List DeadFileEntry
  topHotPathFiles : List HotFileEntry
  deriving DecidableEq, Repr

/-- Method getExecutionSummary (lines 115 to 164): counts over
Object.values of the table; deadBranches counts records whose hitCount
is exactly 0 (line 121). -/
def getExecutionSummary (s : CollectorState) :
    ExecutionSummary × CollectorState :=
  let stats := tableValues s.branchStats
  let totalBranches := stats.length
  let hitBranches := (stats.filter (fun b => b.hitCount > 0)).length
  let coldBranches := (stats.filter (fun b => b.hitCount > 0 && b.hitCount < 5)).length
  let hotBranches := (stats.filter (fun b => b.hitCount > 100)).length
  let deadBranches := (stats.filter (fun b => b.hitCount == 0)).length
  let fs := fileStats stats
  ({ summary :=
      { totalBranches := totalBranches
        hitBranches := hitBranches
        deadBranches := deadBranches
        hotBranches := hotBranches
        coldBranches := coldBranches
        coverageRate := if totalBranches > 0 then
          (hitBranches : ℚ) / (totalBranches : ℚ) else 0 }
     fileStats := fs
     topDeadCodeFiles := topDeadCodeFiles fs
     topHotPathFiles := topHotPathFiles fs }, s)

/-- The return value of exportData (lines 222 to 229). -/
structure ExportPayload where
  branchStats : BranchStats
  executionSummary : ExecutionSummary
  config : RuntimeCoverageConfig
  sessionId : String
  deriving DecidableEq

/-- Method exportData (lines 222 to 229): package getBranchStats,
getExecutionSummary, config and sessionId. -/
def exportData (s : CollectorState) : ExportPayload × CollectorState :=
  let r1 := getBranchStats s
  let r2 := getExecutionSummary r1.2
  ({ branchStats := r1.1
     executionSummary := r2.1
     config := r2.2.config
     sessionId := r2.2.sessionId }, r2.2)

/-! ## Event traces over the collector

Sampling acceptance is made explicit so that the spec invariant about
sampled-through events can be stated: accepted reproduces the two gate
verdicts of recordBranchHit on the pre-state. -/

/-- The gate cascade of recordBranchHit lines 47 and 54: an event is
accepted when it passes the sampling gate and the rate-limiting gate, or
when sampling is disabled. -/
def accepted (s : CollectorState) (now : ℚ) : Bool :=
  if s.samplingConfig.enabled then
    if (shouldSample s).1 then !(isRateLimited (shouldSample s).2 now).1
    else false
  else true

/-- One external event against the collector: a recordBranchHit call
with its arguments and the two clock readings, or a clearStats call. -/
inductive CEvent where
  | record (branchId type conditionCode : String)
      (conditionResult collectExecutionTime : Bool) (now now2 : ℚ)
  | clear
  deriving DecidableEq

/-- Run a list of events, also accumulating the ghost list of branchIds
of events that were sampled through since the most recent clear. -/
def runEvents (s : CollectorState) (g : List String) :
    List CEvent → CollectorState × List String
  | [] => (s, g)
  | CEvent.record id ty cond res ct now now2 :: rest =>
      runEvents (recordBranchHit s id ty cond res ct now now2).2
        (if accepted s now then id :: g else g) rest
  | CEvent.clear :: rest => runEvents (clearStats s) [] rest

/-- Recorded events for one branch id: the sum of both counters, 0 when
the record is absent. -/
def countOf (s : CollectorState) (id : String) : ℕ :=
  match getEntry s.branchStats id with
  | some r => r.hitCount + r.missCount
  | none => 0

/-- Argument bundle for a recordBranchHit call with a fixed branchId. -/
structure CallArgs where
  type : String
  conditionCode : String
  conditionResult : Bool
  collectExecutionTime : Bool
  now : ℚ
  now2 : ℚ
  deriving DecidableEq

/-- Fold a list of recordBranchHit calls sharing one branchId. -/
def runCalls (s : CollectorState) (id : String) (cs : List CallArgs) :
    CollectorState :=
  cs.foldl (fun s c => (recordBranchHit s id c.type c.conditionCode
    c.conditionResult c.collectExecutionTime c.now c.now2).2) s

/-! ## Spec-side definition used to compare the dead-branch count

The specification defines a dead branch as one with zero hits and zero
misses; this definition follows the spec words, to be compared against
the deadBranches count computed by getExecutionSummary. -/

/-- Dead-branch count as the specification words it: records with
hitCount 0 and missCount 0. -/
def specDeadBranches (t : BranchStats) : ℕ :=
  ((tableValues t).filter (fun b => b.hitCount == 0 && b.missCount == 0)).length

/-! ## A small JavaScript fragment for the instrumentation pass
(src/babel-plugin.ts)

The fragment covers the constructs the rewrites produce and operate on:
literals, variable reads, postfix increment, numeric comparison,
sequence expressions, and the injected call to
window.__RUNTIME_COVERAGE__.recordBranchHit. Program stores map
variable names to numbers; the fragment covers integer-valued programs,
so numbers carry integers. The collector state is threaded through
evaluation, with the clock fixed at an ambient value per run. -/

/-- JavaScript values the fragment manipulates. -/
inductive JSVal where
  | num (n : ℤ)
  | bool (b : Bool)
  | str (s : String)
  | undef
  deriving DecidableEq, Repr

/-- ToBoolean coercion: 0 and the empty string are falsy. -/
def toBoolean : JSVal → Bool
  | JSVal.num n => decide (n ≠ 0)
  | JSVal.bool b => b
  | JSVal.str s => decide (s ≠ "")
  | JSVal.undef => false

/-- Strict equality, as the switch discriminant comparison uses it. -/
def jsStrictEq : JSVal → JSVal → Bool
  | JSVal.num a, JSVal.num b => a == b
  | JSVal.bool a, JSVal.bool b => a == b
  | JSVal.str a, JSVal.str b => a == b
  | JSVal.undef, JSVal.undef => true
  | _, _ => false

/-- Expressions of the fragment. The recordCall node is the call
expression built by createInstrumentationCall: three string literals,
the conditionResult expression, and the optional boolean literal for
collectExecutionTime, folded into the node. -/
inductive Expr where
  | lit (v : JSVal)
  | evar (x : String)
  | postIncr (x : String)
  | lt (e1 e2 : Expr)
  | seq (e1 e2 : Expr)
  | recordCall (branchId type conditionCode : String)
      (collectExecutionTime : Bool) (arg : Expr)
  deriving DecidableEq, Repr

/-- Variable stores of the fragment. -/
def Store := String → ℤ

/-- Store update for postfix increment. -/
def setVar (st : Store) (x : String) (v : ℤ) : Store :=
  fun y => if y == x then v else st y

/-- Result of evaluating one expression: the value, the program store,
and the collector state. -/
structure EvalRes where
  val : JSVal
  store : Store
  coll : CollectorState

/-- Less-than on values: defined on numbers, false elsewhere. -/
def jsLtVal : JSVal → JSVal → JSVal
  | JSVal.num a, JSVal.num b => JSVal.bool (decide (a < b))
  | _, _ => JSVal.bool false

/-- Left-to-right evaluation of the fragment, with the ambient clock now
used for both performance.now readings inside recordBranchHit. The
recordCall node evaluates its argument once, feeds its truthiness to the
collector, and returns the raw argument value, exactly as the JS call
returns its conditionResult argument. -/
def evalExpr (now : ℚ) : Expr → Store → CollectorState → EvalRes
  | Expr.lit v, st, c => ⟨v, st, c⟩
  | Expr.evar x, st, c => ⟨JSVal.num (st x), st, c⟩
  | Expr.postIncr x, st, c => ⟨JSVal.num (st x), setVar st x (st x + 1), c⟩
  | Expr.lt e1 e2, st, c =>
      let r1 := evalExpr now e1 st c
      let r2 := evalExpr now e2 r1.store r1.coll
      ⟨jsLtVal r1.val r2.val, r2.store, r2.coll⟩
  | Expr.seq e1 e2, st, c =>
      let r1 := evalExpr now e1 st c
      evalExpr now e2 r1.store r1.coll
  | Expr.recordCall id ty cond ct arg, st, c =>
      let r := evalExpr now arg st c
      let rec2 := recordBranchHit r.coll id ty cond (toBoolean r.val) ct now now
      ⟨r.val, r.store, rec2.2⟩

/-- Statements of the fragment, enough for switch case bodies. -/
inductive Stmt where
  | exprStmt (e : Expr)
  | breakStmt
  deriving DecidableEq, Repr

/-- A switch case: an optional test (none is the default case) and a
consequent list of statements. -/
structure SwitchCase where
  test : Option Expr
  consequent : List Stmt
  deriving DecidableEq, Repr

/-- Run a statement list until its end or a break; the flag reports
whether a break fired. -/
def execStmts (now : ℚ) : List Stmt → Store → CollectorState →
    Store × CollectorState × Bool
  | [], st, c => (st, c, false)
  | Stmt.breakStmt :: _, st, c => (st, c, true)
  | Stmt.exprStmt e :: rest, st, c =>
      let r := evalExpr now e st c
      execStmts now rest r.store r.coll

/-- Fall-through execution from the selected case onward, stopping at a
break. -/
def runFromCase (now : ℚ) : List SwitchCase → Store → CollectorState →
    Store × CollectorState
  | [], st, c => (st, c)
  | cs :: rest, st, c =>
      let r := execStmts now cs.consequent st c
      if r.2.2 then (r.1, r.2.1) else runFromCase now rest r.1 r.2.1

/-- Run from the default case when no test matched. -/
def runDefault (now : ℚ) : List SwitchCase → Store → CollectorState →
    Store × CollectorState
  | [], st, c => (st, c)
  | cs :: rest, st, c =>
      match cs.test with
      | none => runFromCase now (cs :: rest) st c
      | some _ => runDefault now rest st c

/-- Scan the cases in order, evaluating each non-default test and
comparing it strictly with the discriminant value; on a match,
execution falls through from that case. -/
def findCase (now : ℚ) (dv : JSVal) : List SwitchCase → List SwitchCase →
    Store → CollectorState → Store × CollectorState
  | all, [], st, c => runDefault now all st c
  | all, cs :: rest, st, c =>
      match cs.test with
      | none => findCase now dv all rest st c
      | some t =>
          let r := evalExpr now t st c
          if jsStrictEq dv r.val then
            runFromCase now (cs :: rest) r.store r.coll
          else findCase now dv all rest r.store r.coll

/-- Execute a switch statement: evaluate the discriminant, then select
and run a case. -/
def execSwitch (now : ℚ) (disc : Expr) (cases : List SwitchCase)
    (st : Store) (c : CollectorState) : Store × CollectorState :=
  let r := evalExpr now disc st c
  findCase now r.val cases cases r.store r.coll

/-! ## The rewrites of src/babel-plugin.ts -/

/-- Function createBranchId (lines 26 to 29), with fileName already
relative to the working directory. -/
def createBranchId (fileName : String) (line column : ℕ) (type : String)
    (counter : ℕ) : String :=
  fileName ++ ":" ++ toString line ++ ":" ++ toString column ++ ":" ++
    type ++ "#" ++ toString counter

/-- Function createInstrumentationCall (lines 31 to 56): the call node
window.__RUNTIME_COVERAGE__.recordBranchHit(branchId, type,
conditionCode, conditionResult) with the optional trailing literal. -/
def createInstrumentationCall (branchId : String) (conditionCode : String)
    (conditionResult : Expr) (type : String)
    (collectExecutionTime : Bool) : Expr :=
  Expr.recordCall branchId type conditionCode collectExecutionTime
    conditionResult

/-- The IfStatement visitor (lines 88 to 105): the test is replaced by
the sequence expression (instrumentationCall, test), where the call
receives the very same test node as its conditionResult argument. -/
def instrumentIfTest (fileName : String) (line column counter : ℕ)
    (conditionCode : String) (collectExecutionTime : Bool)
    (test : Expr) : Expr :=
  Expr.seq
    (createInstrumentationCall
      (createBranchId fileName line column "if" counter)
      conditionCode test "if" collectExecutionTime)
    test

/-- The ConditionalExpression visitor (lines 107 to 123) rewrites the
ternary test the same way. -/
def instrumentTernaryTest (fileName : String) (line column counter : ℕ)
    (conditionCode : String) (collectExecutionTime : Bool)
    (test : Expr) : Expr :=
  Expr.seq
    (createInstrumentationCall
      (createBranchId fileName line column "ternary" counter)
      conditionCode test "ternary" collectExecutionTime)
    test

/-- The per-case body of the SwitchStatement visitor (lines 133 to 145):
for a case with a test, an expression statement holding the
instrumentation call is unshifted onto the consequent, and the call
receives caseNode.test as its conditionResult argument; counter
advances only on instrumented cases. -/
def instrumentSwitchCases (fileName : String) (line column : ℕ)
    (conditionCode : String) (collectExecutionTime : Bool) :
    ℕ → List SwitchCase → List SwitchCase
  | _, [] => []
  | counter, cs :: rest =>
      match cs.test with
      | none => cs :: instrumentSwitchCases fileName line column
          conditionCode collectExecutionTime counter rest
      | some t =>
          { cs with consequent :=
              Stmt.exprStmt (createInstrumentationCall
                (createBranchId fileName line column "switch-case" counter)
                conditionCode t "switch-case" collectExecutionTime)
              :: cs.consequent }
          :: instrumentSwitchCases fileName line column conditionCode
              collectExecutionTime (counter + 1) rest

/-! ## Object-identity model for the shallow copy of getBranchStats

Value-level Lean cannot express JavaScript aliasing, so the spread at
line 112 is modelled over an explicit heap: tables and records are heap
objects addressed by index, a table holds references to record objects,
and the spread allocates a fresh table object carrying the same record
references. -/

/-- A heap object: a branch table (name-to-reference entries) or a
branch record. -/
inductive HObj where
  | table (entries : List (String × ℕ))
  | recObj (r : BranchRec)
  deriving DecidableEq

/-- The heap: objects addressed by allocation index. -/
abbrev Heap := List HObj

/-- Allocate a fresh object, returning the extended heap and the new
reference. -/
def allocObj (h : Heap) (o : HObj) : Heap × ℕ :=
  (h ++ [o], h.length)

/-- Entries of the table object at a reference. -/
def readTableEntries (h : Heap) (t : ℕ) : List (String × ℕ) :=
  match h[t]? with
  | some (HObj.table es) => es
  | _ => []

/-- The branch record at a reference, when the reference holds one. -/
def readRec (h : Heap) (i : ℕ) : Option BranchRec :=
  match h[i]? with
  | some (HObj.recObj r) => some r
  | _ => none

/-- What the collector observes through its table reference: each entry
name with the record its reference designates. -/
def derefTable (h : Heap) (t : ℕ) : List (String × Option BranchRec) :=
  (readTableEntries h t).map (fun p => (p.1, readRec h p.2))

/-- The spread copy of line 112 over the heap: a fresh table object with
the same entries, hence the same record references. -/
def getBranchStatsRef (h : Heap) (internal : ℕ) : Heap × ℕ :=
  allocObj h (HObj.table (readTableEntries h internal))

/-- Top-level mutation of a table object: set or add one entry on that
object alone. -/
def writeTableEntry (h : Heap) (t : ℕ) (k : String) (v : ℕ) : Heap :=
  h.modify (fun o =>
    match o with
    | HObj.table es =>
        HObj.table (if (es.find? (fun p => decide (p.1 = k))).isSome then
          es.map (fun p => if p.1 = k then (p.1, v) else p)
        else es ++ [(k, v)])
    | o => o) t

/-- Mutation of a record object through a reference: overwrite its
hitCount, as copy.entry.hitCount = n would. -/
def writeRecHitCount (h : Heap) (i : ℕ) (n : ℕ) : Heap :=
  h.modify (fun o =>
    match o with
    | HObj.recObj r => HObj.recObj { r with hitCount := n }
    | o => o) i

/-! ## Named concrete inputs used by counterexamples and witnesses -/

/-- A configuration with sampling disabled. -/
def cfgOff : RuntimeCoverageConfig :=
  { enabled := true
    sampling := { enabled := false, sampleRate := 1,
                  maxSamplesPerSecond := 1000, collectExecutionTime := false }
    excludePatterns := []
    includePatterns := []
    sendToAnalytics := false
    analyticsEndpoint := none
    visualizationEnabled := true }

/-- A configuration with sampling enabled at the given rate. -/
def cfgOn (r : ℚ) : RuntimeCoverageConfig :=
  { cfgOff with
    sampling :=
      { enabled := true
        sampleRate := r
        maxSamplesPerSecond := 1000
        collectExecutionTime := false } }

/-! ## Association-table lemmas -/

/-- Reading an updated table: the updated key maps through the update
function, every other key is untouched. -/
theorem getEntry_updateEntry (t : BranchStats) (k k' : String)
    (f : BranchRec → BranchRec) :
    getEntry (updateEntry t k f) k' =
      if k' = k then (getEntry t k').map f else getEntry t k' := by
  induction t with
  | nil => simp [getEntry, updateEntry]
  | cons hd tl ih =>
      by_cases h2 : k' = k
      · subst h2
        by_cases h1 : hd.1 = k' <;>
          simp_all [getEntry, updateEntry, List.find?]
      · have h2s : ¬ k = k' := fun hc => h2 hc.symm
        by_cases h1 : hd.1 = k <;> by_cases h3 : hd.1 = k' <;>
          simp_all [getEntry, updateEntry, List.find?]

/-- Reading past an append insert at a fresh key. -/
theorem getEntry_insertEntry_self (t : BranchStats) (k : String)
    (v : BranchRec) (h : getEntry t k = none) :
    getEntry (insertEntry t k v) k = some v := by
  induction t with
  | nil => simp [getEntry, insertEntry, List.find?]
  | cons hd tl ih =>
      simp only [getEntry, insertEntry, List.cons_append, List.find?] at h ⊢
      by_cases h1 : hd.1 = k
      · simp [h1] at h
      · simp only [h1, decide_eq_true_eq, if_false] at h ⊢
        exact ih h

/-- An append insert at one key does not change any other key. -/
theorem getEntry_insertEntry_ne (t : BranchStats) (k k' : String)
    (v : BranchRec) (h : k' ≠ k) :
    getEntry (insertEntry t k v) k' = getEntry t k' := by
  induction t with
  | nil => simp [getEntry, insertEntry, List.find?, Ne.symm h]
  | cons hd tl ih =>
      by_cases h1 : hd.1 = k' <;> simp_all [getEntry, insertEntry, List.find?]

/-- The record applyHit leaves at its branchId: the previous record, or
a fresh one, with one counter bumped, executionTime conditionally
overwritten, and the timestamp set. -/
def finalRec (b : BranchRec) (conditionResult collectExecutionTime : Bool)
    (now now2 : ℚ) : BranchRec :=
  let b1 := if conditionResult then { b with hitCount := b.hitCount + 1 }
    else { b with missCount := b.missCount + 1 }
  let b2 := if collectExecutionTime then { b1 with executionTime := some (now2 - now) }
    else b1
  { b2 with timestamp := now }

/-- The record applyHit starts from: the table entry when present, else
the fresh record. -/
def baseRec (t : BranchStats) (branchId type conditionCode : String)
    (now : ℚ) : BranchRec :=
  (getEntry t branchId).getD (freshRecord branchId type conditionCode now)

/-- Full characterization of applyHit through getEntry. -/
theorem getEntry_applyHit (t : BranchStats) (id ty cond : String)
    (res ct : Bool) (now now2 : ℚ) (k : String) :
    getEntry (applyHit t id ty cond res ct now now2) k =
      if k = id then
        some (finalRec (baseRec t id ty cond now) res ct now now2)
      else getEntry t k := by
  unfold applyHit
  by_cases hk : k = id
  · subst hk
    by_cases he : hasEntry t k
    · obtain ⟨b, hb⟩ : ∃ b, getEntry t k = some b := by
        unfold hasEntry at he
        exact Option.isSome_iff_exists.mp he
      simp [he, getEntry_updateEntry, hb, baseRec, finalRec]
    · have hbf : hasEntry t k = false := by simpa using he
      have hnone : getEntry t k = none := by
        unfold hasEntry at hbf
        simpa using hbf
      simp [hbf, getEntry_updateEntry, getEntry_insertEntry_self t k _ hnone,
        hnone, baseRec, finalRec]
  · by_cases he : hasEntry t id <;>
      simp [he, getEntry_updateEntry, hk, getEntry_insertEntry_ne t id k _ hk]

/-- finalRec advances the sum of the two counters by exactly one. -/
theorem finalRec_counts (b : BranchRec) (res ct : Bool) (now now2 : ℚ) :
    (finalRec b res ct now now2).hitCount +
      (finalRec b res ct now now2).missCount =
      b.hitCount + b.missCount + 1 := by
  cases res <;> cases ct <;> simp [finalRec] <;> omega

/-! ## Gate-level characterization of recordBranchHit -/

/-- Every return path of recordBranchHit hands back conditionResult. -/
theorem recordBranchHit_fst (s : CollectorState) (id ty cond : String)
    (res ct : Bool) (now now2 : ℚ) :
    (recordBranchHit s id ty cond res ct now now2).1 = res := by
  unfold recordBranchHit
  dsimp only
  split_ifs <;> rfl

/-- recordBranchHit never touches the sampling configuration. -/
theorem recordBranchHit_samplingConfig (s : CollectorState)
    (id ty cond : String) (res ct : Bool) (now now2 : ℚ) :
    (recordBranchHit s id ty cond res ct now now2).2.samplingConfig =
      s.samplingConfig := by
  unfold recordBranchHit shouldSample isRateLimited
  dsimp only
  split_ifs <;> rfl

/-- The table after recordBranchHit: mutated through applyHit when the
gate cascade accepts, untouched otherwise. -/
theorem recordBranchHit_branchStats (s : CollectorState) (id ty cond : String)
    (res ct : Bool) (now now2 : ℚ) :
    (recordBranchHit s id ty cond res ct now now2).2.branchStats =
      if accepted s now then
        applyHit s.branchStats id ty cond res ct now now2
      else s.branchStats := by
  unfold recordBranchHit accepted shouldSample isRateLimited
  dsimp only
  split_ifs <;> (try rfl) <;> (try simp_all) <;> (exfalso; linarith)

/-- With sampling disabled both gates are skipped and the event is
accepted. -/
theorem accepted_of_disabled (s : CollectorState) (now : ℚ)
    (h : s.samplingConfig.enabled = false) : accepted s now = true := by
  simp [accepted, h]

/-- Recorded events at a key of a table: the counter sum, 0 when the
record is absent. -/
def countsAt (t : BranchStats) (k : String) : ℕ :=
  match getEntry t k with
  | some r => r.hitCount + r.missCount
  | none => 0

/-- applyHit advances the counter sum at its own branchId by one. -/
theorem countsAt_applyHit_self (t : BranchStats) (id ty cond : String)
    (res ct : Bool) (now now2 : ℚ) :
    countsAt (applyHit t id ty cond res ct now now2) id = countsAt t id + 1 := by
  unfold countsAt
  rw [getEntry_applyHit, if_pos rfl]
  show (finalRec (baseRec t id ty cond now) res ct now now2).hitCount +
    (finalRec (baseRec t id ty cond now) res ct now now2).missCount = _
  rw [finalRec_counts]
  unfold baseRec
  cases hb : getEntry t id <;> simp [hb, freshRecord]

/-- One recordBranchHit call with sampling disabled advances the counter
sum at its branchId by exactly one. -/
theorem countOf_record_disabled (s : CollectorState) (id ty cond : String)
    (res ct : Bool) (now now2 : ℚ)
    (h : s.samplingConfig.enabled = false) :
    countOf ((recordBranchHit s id ty cond res ct now now2).2) id =
      countOf s id + 1 := by
  show countsAt (recordBranchHit s id ty cond res ct now now2).2.branchStats id =
    countsAt s.branchStats id + 1
  rw [recordBranchHit_branchStats, accepted_of_disabled s now h,
    if_pos rfl, countsAt_applyHit_self]

/-- Folding calls with sampling disabled adds the number of calls to the
counter sum. -/
theorem runCalls_count_aux (id : String) (cs : List CallArgs) :
    ∀ s : CollectorState, s.samplingConfig.enabled = false →
    countOf (runCalls s id cs) id = countOf s id + cs.length := by
  induction cs with
  | nil => intro s _; simp [runCalls]
  | cons c rest ih =>
      intro s h
      have hstep := countOf_record_disabled s id c.type c.conditionCode
        c.conditionResult c.collectExecutionTime c.now c.now2 h
      have hcfg := recordBranchHit_samplingConfig s id c.type c.conditionCode
        c.conditionResult c.collectExecutionTime c.now c.now2
      have := ih (recordBranchHit s id c.type c.conditionCode
        c.conditionResult c.collectExecutionTime c.now c.now2).2
        (by rw [hcfg]; exact h)
      simp only [runCalls, List.foldl_cons] at *
      rw [this, hstep, List.length_cons]
      omega

/-- C5: with sampling disabled in configuration every event is accepted
unconditionally: starting from any state without a record for the id,
after N recordBranchHit calls with that id the record's hitCount plus
missCount equals N exactly. -/
theorem recording_disabled_counts_exact (s : CollectorState) (id : String)
    (cs : List CallArgs) (h : s.samplingConfig.enabled = false)
    (h0 : getEntry s.branchStats id = none) :
    countOf (runCalls s id cs) id = cs.length := by
  have h1 := runCalls_count_aux id cs s h
  have h2 : countOf s id = 0 := by
    show countsAt s.branchStats id = 0
    unfold countsAt
    rw [h0]
  rw [h1, h2, Nat.zero_add]

/-- C5 witness at a concrete run: three calls with results true, false,
true on a fresh collector with sampling disabled give counter sum 3. -/
theorem recording_disabled_counts_exact_witness :
    countOf (runCalls (initCollector cfgOff "sess") "Dashboard.tsx:45:8:if#0"
      [⟨"if", "x", true, false, 0, 0⟩, ⟨"if", "x", false, false, 1, 1⟩,
       ⟨"if", "x", true, false, 2, 2⟩]) "Dashboard.tsx:45:8:if#0" = 3 :=
  recording_disabled_counts_exact (initCollector cfgOff "sess")
    "Dashboard.tsx:45:8:if#0"
    [⟨"if", "x", true, false, 0, 0⟩, ⟨"if", "x", false, false, 1, 1⟩,
     ⟨"if", "x", true, false, 2, 2⟩] (by decide) (by decide)

/-- C6: recordBranchHit always hands back the conditionResult argument
unchanged, and when the gate cascade rejects the event the
branch-statistics table is left unmutated. -/
theorem recordBranchHit_transparent (s : CollectorState) (id ty cond : String)
    (res ct : Bool) (now now2 : ℚ) :
    (recordBranchHit s id ty cond res ct now now2).1 = res ∧
    (accepted s now = false →
      (recordBranchHit s id ty cond res ct now now2).2.branchStats =
        s.branchStats) := by
  refine ⟨recordBranchHit_fst s id ty cond res ct now now2, fun h => ?_⟩
  rw [recordBranchHit_branchStats, h]
  simp

/-- C6 witness: with sampling enabled at rate 0 the gate rejects, the
return value is still the passed result, and the table stays empty. -/
theorem recordBranchHit_transparent_witness :
    accepted (initCollector (cfgOn 0) "s") 5 = false ∧
    (recordBranchHit (initCollector (cfgOn 0) "s") "a" "if" "x" true false
      5 5).1 = true ∧
    (recordBranchHit (initCollector (cfgOn 0) "s") "a" "if" "x" true false
      5 5).2.branchStats = (initCollector (cfgOn 0) "s").branchStats :=
  have hrej : accepted (initCollector (cfgOn 0) "s") 5 = false := by
    norm_num [accepted, shouldSample, isRateLimited, initCollector, cfgOn,
      cfgOff, jsMod1, jsTrunc]
  ⟨hrej,
   (recordBranchHit_transparent (initCollector (cfgOn 0) "s") "a" "if" "x"
     true false 5 5).1,
   (recordBranchHit_transparent (initCollector (cfgOn 0) "s") "a" "if" "x"
     true false 5 5).2 hrej⟩

/-- C7: the sampling gate bumps its counter on every evaluation (reset
only by clearStats), accepts exactly when (c * r) mod 1 < r at the
post-increment counter c, and therefore passes everything at rate 1 and
nothing at rate 0. -/
theorem samplingGate_formula (s : CollectorState) :
    (shouldSample s).2 = { s with sampleCounter := s.sampleCounter + 1 } ∧
    ((shouldSample s).1 = true ↔
      jsMod1 (((s.sampleCounter + 1 : ℕ) : ℚ) * s.samplingConfig.sampleRate) <
        s.samplingConfig.sampleRate) ∧
    (s.samplingConfig.sampleRate = 1 → (shouldSample s).1 = true) ∧
    (s.samplingConfig.sampleRate = 0 → (shouldSample s).1 = false) ∧
    (clearStats s).sampleCounter = 0 := by
  refine ⟨rfl, by simp [shouldSample], fun h => ?_, fun h => ?_, rfl⟩
  · simp only [shouldSample, h, decide_eq_true_eq]
    rw [mul_one]
    have hz : jsMod1 (((s.sampleCounter + 1 : ℕ) : ℚ)) = 0 := by
      simp [jsMod1, jsTrunc]
    rw [hz]
    norm_num
  · simp only [shouldSample, h, decide_eq_false_iff_not, not_lt]
    rw [mul_zero]
    have hz : jsMod1 (0 : ℚ) = 0 := by
      simp [jsMod1, jsTrunc]
    rw [hz]

/-- C7 witness: at rate 1 the first event passes the gate, at rate 0 it
does not, and the counter advances from 0 to 1. -/
theorem samplingGate_formula_witness :
    (shouldSample (initCollector (cfgOn 1) "s")).1 = true ∧
    (shouldSample (initCollector (cfgOn 0) "s")).1 = false ∧
    (shouldSample (initCollector (cfgOn 1) "s")).2.sampleCounter = 1 :=
  ⟨(samplingGate_formula (initCollector (cfgOn 1) "s")).2.2.1 rfl,
   (samplingGate_formula (initCollector (cfgOn 0) "s")).2.2.2.1 rfl,
   by rw [(samplingGate_formula (initCollector (cfgOn 1) "s")).1]; rfl⟩

/-- The invariant of C4, carried through event traces: every record has
at least one counted event, and a key is present exactly when the ghost
list of sampled-through ids since the last clear mentions it. -/
def TableInv (s : CollectorState) (g : List String) : Prop :=
  (∀ k r, getEntry s.branchStats k = some r → 1 ≤ r.hitCount + r.missCount) ∧
  (∀ k, hasEntry s.branchStats k = true ↔ k ∈ g)

/-- One record event preserves the invariant, extending the ghost list
exactly when the event is accepted. -/
theorem tableInv_record (s : CollectorState) (g : List String)
    (id ty cond : String) (res ct : Bool) (now now2 : ℚ)
    (h : TableInv s g) :
    TableInv (recordBranchHit s id ty cond res ct now now2).2
      (if accepted s now then id :: g else g) := by
  obtain ⟨h1, h2⟩ := h
  by_cases ha : accepted s now = true
  · rw [if_pos ha]
    constructor
    · intro k r hk
      rw [recordBranchHit_branchStats, if_pos ha, getEntry_applyHit] at hk
      by_cases hkid : k = id
      · rw [if_pos hkid] at hk
        injection hk with hk
        rw [← hk, finalRec_counts]
        omega
      · rw [if_neg hkid] at hk
        exact h1 k r hk
    · intro k
      unfold hasEntry
      rw [recordBranchHit_branchStats, if_pos ha, getEntry_applyHit]
      by_cases hkid : k = id
      · simp [hkid]
      · rw [if_neg hkid]
        have := h2 k
        unfold hasEntry at this
        simp [this, List.mem_cons, hkid]
  · have ha' : accepted s now = false := by
      cases hx : accepted s now
      · rfl
      · exact absurd hx ha
    rw [if_neg ha]
    constructor
    · intro k r hk
      rw [recordBranchHit_branchStats, ha'] at hk
      simp only [Bool.false_eq_true, if_false] at hk
      exact h1 k r hk
    · intro k
      unfold hasEntry
      rw [recordBranchHit_branchStats, ha']
      simp only [Bool.false_eq_true, if_false]
      exact h2 k

/-- clearStats restores the invariant with an empty ghost list. -/
theorem tableInv_clear (s : CollectorState) : TableInv (clearStats s) [] := by
  constructor
  · intro k r hk
    simp [clearStats, getEntry] at hk
  · intro k
    simp [clearStats, hasEntry, getEntry]

/-- Any event trace preserves the invariant. -/
theorem tableInv_runEvents (evs : List CEvent) :
    ∀ (s : CollectorState) (g : List String), TableInv s g →
    TableInv (runEvents s g evs).1 (runEvents s g evs).2 := by
  induction evs with
  | nil => intro s g h; exact h
  | cons e rest ih =>
      intro s g h
      cases e with
      | record id ty cond res ct now now2 =>
          exact ih _ _ (tableInv_record s g id ty cond res ct now now2 h)
      | clear => exact ih _ _ (tableInv_clear s)

/-- C4: in every state reachable from a fresh collector through
recordBranchHit and clearStats events, a branchId key exists in the
branch-statistics table iff a sampled-through event for that id has been
recorded since the last clear; consequently every record in the table
has hitCount + missCount at least 1. -/
theorem table_existence_invariant (cfg : RuntimeCoverageConfig)
    (sid : String) (evs : List CEvent) :
    (∀ k r,
      getEntry (runEvents (initCollector cfg sid) [] evs).1.branchStats k =
        some r → 1 ≤ r.hitCount + r.missCount) ∧
    (∀ k, hasEntry (runEvents (initCollector cfg sid) [] evs).1.branchStats k
        = true ↔ k ∈ (runEvents (initCollector cfg sid) [] evs).2) := by
  have hinit : TableInv (initCollector cfg sid) [] := by
    constructor
    · intro k r hk
      simp [initCollector, getEntry] at hk
    · intro k
      simp [initCollector, hasEntry, getEntry]
  exact tableInv_runEvents evs (initCollector cfg sid) [] hinit

/-- C4 witness: after one accepted miss event for one id, that id is
present with counter sum at least 1, and the ghost list holds it. -/
theorem table_existence_invariant_witness :
    (getEntry (runEvents (initCollector cfgOff "s") []
        [CEvent.record "a" "if" "x" false false 0 0]).1.branchStats "a").isSome
      = true ∧
    1 ≤ ((getEntry (runEvents (initCollector cfgOff "s") []
        [CEvent.record "a" "if" "x" false false 0 0]).1.branchStats "a").getD
          (freshRecord "a" "if" "x" 0)).hitCount +
        ((getEntry (runEvents (initCollector cfgOff "s") []
          [CEvent.record "a" "if" "x" false false 0 0]).1.branchStats "a").getD
          (freshRecord "a" "if" "x" 0)).missCount := by
  have h := table_existence_invariant cfgOff "s"
    [CEvent.record "a" "if" "x" false false 0 0]
  have hmem : "a" ∈ (runEvents (initCollector cfgOff "s") []
      [CEvent.record "a" "if" "x" false false 0 0]).2 := by
    simp [runEvents, accepted, initCollector, cfgOff]
  have hsome := (h.2 "a").mpr hmem
  unfold hasEntry at hsome
  refine ⟨hsome, ?_⟩
  obtain ⟨r, hr⟩ := Option.isSome_iff_exists.mp hsome
  rw [hr]
  exact h.1 "a" r hr

/-! ## The summarization claims -/

/-- Splitting a filter count along a second predicate. -/
theorem length_filter_split {α : Type} (p q : α → Bool) (l : List α) :
    (l.filter p).length =
      (l.filter (fun x => p x && q x)).length +
      (l.filter (fun x => p x && !q x)).length := by
  induction l with
  | nil => rfl
  | cons x xs ih =>
      cases hp : p x <;> cases hq : q x <;>
        simp [List.filter, hp, hq] <;> omega

/-- Two complementary filters count the whole list. -/
theorem length_filter_hit_dead (l : List BranchRec) :
    (l.filter (fun b => b.hitCount > 0)).length +
      (l.filter (fun b => b.hitCount == 0)).length = l.length := by
  induction l with
  | nil => rfl
  | cons x xs ih =>
      cases hx : x.hitCount with
      | zero => simp [List.filter, hx] at *; omega
      | succ n => simp [List.filter, hx] at *; omega

/-- The collector state reached by recording a single miss on a fresh
collector with sampling disabled: the table holds one record with
hitCount 0 and missCount 1. -/
def oneMissState : CollectorState :=
  (recordBranchHit (initCollector cfgOff "sess") "a.ts:1:2:if#0" "if" "x"
    false false 0 0).2

/-- C1 counterexample: on the state holding one record with a recorded
miss and no hit, getExecutionSummary reports deadBranches 1, while the
count of records with both counters zero is 0; the code counts a
missed-only record as dead. -/
theorem deadBranches_spec_counterexample :
    (getExecutionSummary oneMissState).1.summary.deadBranches = 1 ∧
    specDeadBranches oneMissState.branchStats = 0 ∧
    (getExecutionSummary oneMissState).1.summary.deadBranches ≠
      specDeadBranches oneMissState.branchStats := by
  refine ⟨by decide, by decide, by decide⟩

/-- C1 amended: deadBranches counts exactly the records whose hitCount
is 0, regardless of missCount; it exceeds the count of never-evaluated
records by the number of records with no hit but at least one miss. -/
theorem deadBranches_counts_hitCount_zero (s : CollectorState) :
    (getExecutionSummary s).1.summary.deadBranches =
      ((tableValues s.branchStats).filter (fun b => b.hitCount == 0)).length ∧
    (getExecutionSummary s).1.summary.deadBranches =
      specDeadBranches s.branchStats +
      ((tableValues s.branchStats).filter
        (fun b => b.hitCount == 0 && !(b.missCount == 0))).length := by
  refine ⟨rfl, ?_⟩
  show ((tableValues s.branchStats).filter (fun b => b.hitCount == 0)).length = _
  unfold specDeadBranches
  exact length_filter_split (fun b => b.hitCount == 0)
    (fun b => b.missCount == 0) (tableValues s.branchStats)

/-- C10: every record is classified as exactly one of hit (hitCount
positive) or dead (hitCount zero), so the summary satisfies hitBranches
plus deadBranches equals totalBranches. -/
theorem summary_hit_dead_partition (s : CollectorState) :
    (getExecutionSummary s).1.summary.hitBranches +
      (getExecutionSummary s).1.summary.deadBranches =
      (getExecutionSummary s).1.summary.totalBranches := by
  show ((tableValues s.branchStats).filter (fun b => b.hitCount > 0)).length +
    ((tableValues s.branchStats).filter (fun b => b.hitCount == 0)).length =
    (tableValues s.branchStats).length
  exact length_filter_hit_dead (tableValues s.branchStats)

/-- C9: exportData mutates nothing, so two consecutive calls with no
intervening events return the same branchStats table and the same
execution summary. -/
theorem exportData_idempotent (s : CollectorState) :
    (exportData (exportData s).2).1.branchStats =
      (exportData s).1.branchStats ∧
    (exportData (exportData s).2).1.executionSummary =
      (exportData s).1.executionSummary ∧
    (exportData s).2 = s :=
  ⟨rfl, rfl, rfl⟩

/-! ## The shallow-copy claim over the heap model -/

/-- Writing a table entry never changes any record object. -/
theorem readRec_writeTableEntry (h : Heap) (t : ℕ) (k : String) (v : ℕ)
    (i : ℕ) : readRec (writeTableEntry h t k v) i = readRec h i := by
  unfold readRec writeTableEntry
  rw [List.getElem?_modify]
  cases ho : h[i]? with
  | none => simp
  | some o =>
      cases o with
      | table es => by_cases hti : t = i <;> simp [hti]
      | recObj r => by_cases hti : t = i <;> simp [hti]

/-- Writing a table entry at one reference leaves the entry list of any
other reference alone. -/
theorem readTableEntries_writeTableEntry_ne (h : Heap) (t : ℕ) (k : String)
    (v : ℕ) (i : ℕ) (hne : i ≠ t) :
    readTableEntries (writeTableEntry h t k v) i = readTableEntries h i := by
  unfold readTableEntries writeTableEntry
  rw [List.getElem?_modify]
  simp [Ne.symm hne]

/-- The freshly allocated table object reads back its entries. -/
theorem readTableEntries_concat_self (h : Heap) (es : List (String × ℕ)) :
    readTableEntries (h ++ [HObj.table es]) h.length = es := by
  unfold readTableEntries
  rw [List.getElem?_concat_length]

/-- Allocating a table object changes no record object. -/
theorem readRec_append_table (h : Heap) (es : List (String × ℕ)) (i : ℕ) :
    readRec (h ++ [HObj.table es]) i = readRec h i := by
  unfold readRec
  rw [List.getElem?_append]
  by_cases hi : i < h.length
  · simp [hi]
  · have h1 : h[i]? = none := List.getElem?_eq_none (Nat.le_of_not_lt hi)
    simp [hi, h1]
    cases hd : i - h.length with
    | zero => simp
    | succ n => simp

/-- Allocating a table object preserves the view through an existing
table reference. -/
theorem derefTable_append_table (h : Heap) (es : List (String × ℕ))
    (internal : ℕ) (hlt : internal < h.length) :
    derefTable (h ++ [HObj.table es]) internal = derefTable h internal := by
  unfold derefTable readTableEntries
  rw [List.getElem?_append]
  simp only [hlt, if_true, readRec_append_table]

/-- Mutating a table object at one reference preserves the view through
any other table reference. -/
theorem derefTable_writeTableEntry_ne (h : Heap) (t : ℕ) (k : String)
    (v : ℕ) (internal : ℕ) (hne : internal ≠ t) :
    derefTable (writeTableEntry h t k v) internal = derefTable h internal := by
  unfold derefTable
  rw [readTableEntries_writeTableEntry_ne h t k v internal hne]
  simp only [readRec_writeTableEntry]

/-- C8 amended: the spread in getBranchStats allocates a fresh table
object, distinct from the internal one, holding the same entries, so
top-level mutation of the copy leaves every view through the internal
reference unchanged; the record references themselves are shared. -/
theorem getBranchStats_shallow_copy (h : Heap) (internal : ℕ)
    (hlt : internal < h.length) :
    (getBranchStatsRef h internal).2 ≠ internal ∧
    readTableEntries (getBranchStatsRef h internal).1
        (getBranchStatsRef h internal).2 = readTableEntries h internal ∧
    (∀ k v, derefTable (writeTableEntry (getBranchStatsRef h internal).1
        (getBranchStatsRef h internal).2 k v) internal =
      derefTable (getBranchStatsRef h internal).1 internal) ∧
    derefTable (getBranchStatsRef h internal).1 internal =
      derefTable h internal := by
  refine ⟨Nat.ne_of_gt hlt, ?_, ?_, ?_⟩
  · exact readTableEntries_concat_self h (readTableEntries h internal)
  · intro k v
    exact derefTable_writeTableEntry_ne _ _ k v internal (Nat.ne_of_lt hlt)
  · exact derefTable_append_table h _ internal hlt

/-- A concrete record object shared between the internal table and the
returned copy. -/
def recShared : BranchRec :=
  { branchId := "a"
    file := "a.ts"
    line := none
    column := none
    type := "if"
    condition := "x"
    hitCount := 0
    missCount := 1
    timestamp := 0
    executionTime := none }

/-- A concrete heap: the internal table at reference 0 holds entry a
pointing at the record object at reference 1. -/
def heapC8 : Heap := [HObj.table [("a", 1)], HObj.recObj recShared]

/-- C8 witness: on the concrete heap the copy reference differs from
the internal one and a top-level write through the copy leaves the
internal view unchanged. -/
theorem getBranchStats_shallow_copy_witness :
    (getBranchStatsRef heapC8 0).2 ≠ 0 ∧
    derefTable (writeTableEntry (getBranchStatsRef heapC8 0).1
        (getBranchStatsRef heapC8 0).2 "b" 7) 0 =
      derefTable (getBranchStatsRef heapC8 0).1 0 :=
  ⟨(getBranchStats_shallow_copy heapC8 0 (by decide)).1,
   (getBranchStats_shallow_copy heapC8 0 (by decide)).2.2.1 "b" 7⟩

/-- C8 counterexample: the copy holds the same record reference, and
mutating that record object through the copy changes what the collector
observes through its internal table, refuting independence under
arbitrary mutation of the returned value. -/
theorem getBranchStats_record_sharing_counterexample :
    ("a", 1) ∈ readTableEntries (getBranchStatsRef heapC8 0).1
      (getBranchStatsRef heapC8 0).2 ∧
    derefTable (writeRecHitCount (getBranchStatsRef heapC8 0).1 1 999) 0 ≠
      derefTable (getBranchStatsRef heapC8 0).1 0 := by
  refine ⟨by decide, by decide⟩

/-! ## The instrumentation-pass claims -/

/-- The store with every variable 0. -/
def zeroStore : Store := fun _ => 0

/-- The effectful test x++ < 1 of an if statement. -/
def incrTest : Expr := Expr.lt (Expr.postIncr "x") (Expr.lit (JSVal.num 1))

/-- The test after the IfStatement visitor rewrite. -/
def instrumentedIncrTest : Expr :=
  instrumentIfTest "a.ts" 1 2 0 "x++ < 1" false incrTest

/-- C2 fails on the code: the rewrite places the original test node both
inside the instrumentation call and as the tail of the sequence
expression, so the instrumented condition evaluates the test twice. On
x++ < 1 with x starting at 0 the original test yields true and leaves
x at 1, while the instrumented test yields false and leaves x at 2:
observable value and side effects both diverge. -/
theorem instrumented_if_double_evaluation :
    (evalExpr 0 incrTest zeroStore (initCollector cfgOff "sess")).val =
      JSVal.bool true ∧
    (evalExpr 0 incrTest zeroStore (initCollector cfgOff "sess")).store "x"
      = 1 ∧
    (evalExpr 0 instrumentedIncrTest zeroStore
      (initCollector cfgOff "sess")).val = JSVal.bool false ∧
    (evalExpr 0 instrumentedIncrTest zeroStore
      (initCollector cfgOff "sess")).store "x" = 2 :=
  ⟨by decide, by decide, by decide, by decide⟩

/-- The switch case with label 0 and an immediate break. -/
def zeroCase : SwitchCase :=
  { test := some (Expr.lit (JSVal.num 0)), consequent := [Stmt.breakStmt] }

/-- The case list after the SwitchStatement visitor rewrite. -/
def instrumentedZeroCase : List SwitchCase :=
  instrumentSwitchCases "a.ts" 5 0 "case 0" false 0 [zeroCase]

/-- The store with every variable 1. -/
def oneStore : Store := fun _ => 1

/-- C3 fails on the code: the instrumentation call passes the case label
expression as its conditionResult, so when switch (x) with x = 0 selects
and runs the body of case 0, the collector records the truthiness of the
label 0, a miss, not a hit. A case never selected (x = 1) gets no
record, as the claim also says. -/
theorem switch_case_records_label_truthiness :
    ((getEntry (execSwitch 0 (Expr.evar "x") instrumentedZeroCase zeroStore
        (initCollector cfgOff "sess")).2.branchStats
      (createBranchId "a.ts" 5 0 "switch-case" 0)).map
        (fun r => (r.hitCount, r.missCount))) = some (0, 1) ∧
    getEntry (execSwitch 0 (Expr.evar "x") instrumentedZeroCase oneStore
        (initCollector cfgOff "sess")).2.branchStats
      (createBranchId "a.ts" 5 0 "switch-case" 0) = none :=
  ⟨by decide, by decide⟩

end Frontsense

